import Mathlib

/-!
Shallow embedding of the panda style canonicalization engine
(`packages/generator/src/engines/hash-factory.ts`) and of the incremental
build orchestrator (`Builder`, `packages/node`), together with theorems
checking the natural-language specification against this embedding.

JavaScript values appearing in style objects are modelled by `StyleValue`;
machine numbers are modelled as `Int` (the style values exercised here are
integers); JS `undefined` is `StyleValue.undef` for leaf values and
`Option` for optional record fields.  A JS `Set`/`Map` becomes an
insertion-ordered duplicate-free list / association list.  String splitting
and prefix tests are implemented over `String.data` so that every
definition evaluates by kernel reduction.
-/

namespace Panda

/-- `isPrefixOfL pre l` decides whether `pre` is a prefix of `l`. -/
def isPrefixOfL : List Char → List Char → Bool
  | [], _ => true
  | _ :: _, [] => false
  | a :: as, b :: bs => a == b && isPrefixOfL as bs

/-- Finds the first occurrence of `sep` in the list: returns the part before
it and the part after it, or `none` when `sep` does not occur. -/
def breakOnL (sep : List Char) : List Char → Option (List Char × List Char)
  | [] => none
  | c :: cs =>
    if isPrefixOfL sep (c :: cs) then some ([], List.drop sep.length (c :: cs))
    else
      match breakOnL sep cs with
      | none => none
      | some (pre, post) => some (c :: pre, post)

/-- Fuelled splitting loop for `strSplitOn` (the fuel is structurally
consumed so that the function reduces inside the kernel). -/
def splitOnLFuel (sep : List Char) : Nat → List Char → List (List Char)
  | 0, l => [l]
  | fuel + 1, l =>
    match breakOnL sep l with
    | none => [l]
    | some (pre, post) => pre :: splitOnLFuel sep fuel post

/-- JS `String.prototype.split` with a non-empty plain-string separator
(scans left to right, non-overlapping; `"".split(sep) = [""]`). -/
def strSplitOn (s sep : String) : List String :=
  if sep.data.isEmpty then [s]
  else (splitOnLFuel sep.data (s.data.length + 1) s.data).map (fun cs => String.mk cs)

/-- JS `String.prototype.startsWith` with a plain-string argument. -/
def strStartsWith (s pre : String) : Bool :=
  isPrefixOfL pre.data s.data

/-- Joins the parts with the separator between them (inverse of a split). -/
def strJoin (sep : String) : List String → String
  | [] => ""
  | x :: rest => rest.foldl (fun acc s => acc ++ sep ++ s) x

/-- JS `String.prototype.replace` with a plain-string pattern and empty
replacement string: removes the first occurrence of `pat` (identity when
`pat` does not occur). -/
def replaceFirst (s pat : String) : String :=
  match strSplitOn s pat with
  | x :: y :: rest => x ++ strJoin pat (y :: rest)
  | _ => s

/-- A JavaScript value as it occurs in a (normalized) style object:
strings, numbers, booleans, `undefined`, arrays and plain objects
(an object's fields are kept in insertion order, as JS enumeration does). -/
inductive StyleValue where
  | str (s : String)
  | num (n : Int)
  | bool (b : Bool)
  | undef
  | arr (items : List StyleValue)
  | obj (fields : List (String × StyleValue))

/-- A style object: the ordered fields of a JS object literal. -/
abbrev StyleObject := List (String × StyleValue)

mutual
/-- JS template-string coercion `${value}` (arrays join their elements with
commas, objects print as `[object Object]`). -/
def valueToString : StyleValue → String
  | .str s => s
  | .num n => toString n
  | .bool b => toString b
  | .undef => "undefined"
  | .arr items => strJoin "," (valueStrings items)
  | .obj _ => "[object Object]"

/-- String coercion of each element of a list of values. -/
def valueStrings : List StyleValue → List String
  | [] => []
  | v :: rest => valueToString v :: valueStrings rest
end

/-- JS truthiness of a `StyleValue` (objects and arrays are always truthy). -/
def StyleValue.truthy : StyleValue → Bool
  | .str s => s != ""
  | .num n => n != 0
  | .bool b => b
  | .undef => false
  | .arr _ => true
  | .obj _ => true

/-- Whether the value is `undefined`. -/
def StyleValue.isUndef : StyleValue → Bool
  | .undef => true
  | _ => false

/-- `isObjectOrArray` from the shared helpers: the value is an object or an array. -/
def isObjectOrArray : StyleValue → Bool
  | .obj _ => true
  | .arr _ => true
  | _ => false

/-- `HashFactory.separator`. -/
def separator : String := "]___["

/-- `HashFactory.conditionSeparator`. -/
def conditionSeparator : String := "<___>"

/-- One fully resolved style entry (`StyleEntry` in `@pandacss/types`):
a property/value pair under an optional condition, optionally scoped to a
recipe/slot/layer.  Absent optional fields are `none`. -/
structure StyleEntry where
  prop : String
  value : StyleValue
  cond : Option String := none
  recipe : Option String := none
  layer : Option String := none
  slot : Option String := none

/-- JS truthiness of an optional string field (`undefined` and `""` are falsy). -/
def optTruthy : Option String → Bool
  | none => false
  | some s => s != ""

/-- `hashStyleEntry`: serializes a `StyleEntry` to its content-addressing key.
The value is embedded through string coercion; the `cond`, `recipe`, `layer`
and `slot` parts are appended (in that order) only when truthy. -/
def hashStyleEntry (entry : StyleEntry) : String :=
  let parts := [entry.prop ++ separator ++ "value:" ++ valueToString entry.value]
  let parts := if optTruthy entry.cond then parts ++ ["cond:" ++ entry.cond.getD ""] else parts
  let parts := if optTruthy entry.recipe then parts ++ ["recipe:" ++ entry.recipe.getD ""] else parts
  let parts := if optTruthy entry.layer then parts ++ ["layer:" ++ entry.layer.getD ""] else parts
  let parts := if optTruthy entry.slot then parts ++ ["slot:" ++ entry.slot.getD ""] else parts
  strJoin separator parts

/-- Modelled from the spec: `filterBaseConditions` (shared helpers, not under
`src/`) filters out the segments that are placeholder base markers — the
`base` breakpoint/responsive slot, which represents "no condition". -/
def filterBaseConditions (parts : List String) : List String :=
  parts.filter (fun v => v != "base")

/-- `getPreviousCondition`: the second-to-last segment of the path
(`path.split(sep).at(-2) ?? ''`). -/
def getPreviousCondition (path : String) : String :=
  let parts := strSplitOn path conditionSeparator
  if parts.length < 2 then "" else parts.getD (parts.length - 2) ""

/-- `getResolvedCondition`: the final condition string after filtering out
irrelevant parts.  Splits on the condition separator, removes base markers,
drops the first remaining segment when the original first segment is truthy
(nonempty) and not a condition key, and rejoins only when the segment count
changed. -/
def getResolvedCondition (cond : String) (isCondition : String → Bool) : String :=
  if cond == "" then ""
  else
    let parts := strSplitOn cond conditionSeparator
    let first := parts.headD ""
    let relevantParts := filterBaseConditions parts
    let relevantParts := if first != "" && !isCondition first then relevantParts.drop 1 else relevantParts
    if parts.length != relevantParts.length then
      strJoin conditionSeparator relevantParts
    else cond

example : replaceFirst "a<___>b<___>c" ("<___>" ++ "b") = "a<___>c" := by decide
example : getResolvedCondition "base" (fun k => k == "base") = "" := by decide
example : getResolvedCondition ("marginTop" ++ conditionSeparator ++ "md") (fun k => k == "md") = "md" := by decide
example : getResolvedCondition ("_hover" ++ conditionSeparator ++ "base" ++ conditionSeparator ++ "_dark")
    (fun k => strStartsWith k "_") = "_hover" ++ conditionSeparator ++ "_dark" := by decide
example : hashStyleEntry { prop := "mx", value := .num 2, cond := some "sm" }
    = "mx]___[value:2]___[cond:sm" := by decide

/-! ## The style traverser -/

mutual
/-- Modelled from the spec: `toResponsiveObject` composed over the whole
value (shared helpers, not under `src/`) — every raw array value is
converted into an explicit mapping from breakpoint name to the value at
that index before being interpreted as a responsive/condition object. -/
def convertArrays (breakpoints : List String) : StyleValue → StyleValue
  | .obj fields => .obj (convertFields breakpoints fields)
  | .arr items => .obj (breakpoints.zip (convertItems breakpoints items))
  | v => v

/-- Array-to-responsive-object conversion applied to each field value. -/
def convertFields (breakpoints : List String) : List (String × StyleValue) → List (String × StyleValue)
  | [] => []
  | (k, v) :: rest => (k, convertArrays breakpoints v) :: convertFields breakpoints rest

/-- Array-to-responsive-object conversion applied to each list element. -/
def convertItems (breakpoints : List String) : List StyleValue → List StyleValue
  | [] => []
  | v :: rest => convertArrays breakpoints v :: convertItems breakpoints rest
end

/-- One callback invocation of the depth-first walker: the visited key, its
value (arrays already converted to responsive objects), the separator-joined
path from the root, and the nesting depth. -/
structure Visit where
  key : String
  value : StyleValue
  path : String
  depth : Nat

mutual
/-- Recursive descent of the walker into a visited value: only object
values descend (array values were already converted to responsive objects
by `convertArrays`), every other value is a leaf. -/
def visitsVal (sep : String) : StyleValue → String → Nat → List Visit
  | .obj fs, path, depth => visitsFields sep fs path depth
  | _, _, _ => []

/-- Modelled from the spec: the generic depth-first walker (`traverse`,
shared helpers, not under `src/`).  It visits every key of the object in
insertion order, reporting the separator-joined path from the root and the
nesting depth (root keys have depth 1), then descends into object values.
Array values are walked as their responsive-object normalization (arrays
are converted before being interpreted, per the spec), so the input is
pre-converted by `convertArrays` and only object values recurse here. -/
def visitsFields (sep : String) : List (String × StyleValue) → String → Nat → List Visit
  | [], _, _ => []
  | (k, v) :: rest, parentPath, depth =>
    let path := if parentPath == "" then k else parentPath ++ sep ++ k
    { key := k, value := v, path := path, depth := depth + 1 } ::
      (visitsVal sep v path (depth + 1) ++ visitsFields sep rest parentPath depth)
end

/-- The mutable traversal state of `hashStyleObject`'s callback closure:
whether the walker is inside a condition scope, the active condition path,
the previously visited property name and the previously recorded depth. -/
structure CondState where
  isInCondition : Bool := false
  cond : String := ""
  prevProp : String := ""
  prevDepth : Nat := 0

/-- The caller-supplied base fields of an entry (`recipe`/`slot`/`layer`). -/
structure BaseEntry where
  recipe : Option String := none
  layer : Option String := none
  slot : Option String := none

/-- One step of `hashStyleObject`'s traversal callback: given the state and
a visit, returns the updated state and, when the visit reaches a leaf, the
hash to insert (built from the derived property, value and resolved
condition together with the caller-supplied base fields). -/
def hashStep (isCondition : String → Bool) (base : BaseEntry) (st : CondState) (v : Visit) :
    CondState × Option String :=
  if v.value.isUndef then (st, none)
  else if isCondition v.key then
    if isObjectOrArray v.value then
      -- entering an object-valued condition key
      ({ st with isInCondition := true, cond := v.path, prevDepth := v.depth }, none)
    else
      -- a condition key whose value is a leaf: final condition
      let cond :=
        if st.isInCondition && st.cond != "" then
          replaceFirst v.path (conditionSeparator ++ st.prevProp)
        else v.key
      let prop := st.prevProp
      let resolved := getResolvedCondition cond isCondition
      let entry : StyleEntry :=
        { prop := prop, value := v.value, cond := some resolved,
          recipe := base.recipe, layer := base.layer, slot := base.slot }
      ({ st with cond := cond, prevProp := prop, prevDepth := v.depth }, some (hashStyleEntry entry))
  else if isObjectOrArray v.value then
    -- a property key whose value is an object: push a property scope
    ({ st with prevProp := v.key, prevDepth := v.depth }, none)
  else
    -- a property key whose value is a leaf
    let prop := v.key
    let (isInCondition, cond) :=
      if st.isInCondition && v.path == prop then (false, "")
      else if v.depth != st.prevDepth && !st.isInCondition then
        let c := getPreviousCondition v.path
        (c != "", c)
      else (st.isInCondition, st.cond)
    let resolved := getResolvedCondition cond isCondition
    let entry : StyleEntry :=
      { prop := prop, value := v.value, cond := some resolved,
        recipe := base.recipe, layer := base.layer, slot := base.slot }
    ({ isInCondition := isInCondition, cond := cond, prevProp := prop, prevDepth := v.depth },
      some (hashStyleEntry entry))

/-- Runs the traversal callback over the visit sequence, collecting the
emitted hashes in order. -/
def collectHashes (isCondition : String → Bool) (base : BaseEntry) :
    CondState → List Visit → List String
  | _, [] => []
  | st, v :: rest =>
    match hashStep isCondition base st v with
    | (st', none) => collectHashes isCondition base st' rest
    | (st', some h) => h :: collectHashes isCondition base st' rest

/-- A JS `Set<string>` in insertion order: adding an element already present
is a no-op, a new element is appended. -/
def setAdd (s : List String) (x : String) : List String :=
  if x ∈ s then s else s ++ [x]

/-- Adds every element of the list to the set, in order (`set.add` per emitted hash). -/
def setAddAll (s : List String) (xs : List String) : List String :=
  xs.foldl setAdd s

/-! ## The hash factory -/

/-- A plain recipe configuration as consumed by `processRecipe` (the parts
of `RecipeConfig` that the hash factory reads).  `compoundVariants` keeps
only each compound variant's `css` style block (its selection predicate is
not read here).  `none` models an absent field. -/
structure RecipeConfig where
  base : Option StyleObject := none
  defaultVariants : StyleObject := []
  compoundVariants : Option (List StyleObject) := none

/-- A slot recipe configuration as consumed by `processSlotRecipe`:
declared slots, per-slot base styles (`config.base?.[slot]`), default
variants, and compound variants whose `css` is a per-slot map of optional
style blocks. -/
structure SlotRecipeConfig where
  slots : List String := []
  base : Option (List (String × StyleObject)) := none
  defaultVariants : StyleObject := []
  compoundVariants : Option (List (List (String × Option StyleObject))) := none

/-- The injected collector context (`CollectorContext`): the condition
predicate and breakpoint keys of the conditions engine, the property
filter, the template-literal flag, the recipe-config provider (one lookup,
viewed either as a plain or as a slot recipe, mirroring the source's cast),
the slot-key builder, the shorthand resolver used by the style-object
normalization, and the pattern provider.  These collaborators live outside
`src/`; their shapes are modelled from the spec's interface contracts. -/
structure CollectorContext where
  isCondition : String → Bool
  breakpoints : List String := []
  isValidProperty : String → Bool := fun _ => true
  isTemplateLiteralSyntax : Bool := false
  getConfig : String → Option RecipeConfig := fun _ => none
  getSlotConfig : String → Option SlotRecipeConfig := fun _ => none
  getSlotKey : String → String → String := fun recipe slot => recipe ++ "__" ++ slot
  resolveShorthand : String → String := id
  getPatternFnName : String → String := id
  getPatternTransform : String → Option (StyleObject → StyleObject) := fun _ => none

mutual
/-- Key normalization descending through a value: only nested objects have
keys to rewrite. -/
def normalizeVal (resolve : String → String) : StyleValue → StyleValue
  | .obj fields => .obj (normalizeKeys resolve fields)
  | other => other

/-- Modelled from the spec: `normalizeStyleObject` (shared helpers, not
under `src/`) rewrites every shorthand key to its canonical property name
via the utility's shorthand resolver (`{ mx: 4 } => { marginX: 4 }`),
recursively through nested objects. -/
def normalizeKeys (resolve : String → String) : StyleObject → StyleObject
  | [] => []
  | (k, v) :: rest => (resolve k, normalizeVal resolve v) :: normalizeKeys resolve rest
end

/-- `HashFactory.hashStyleObject` as a pure function on the target set:
normalizes the style object, walks it depth-first and inserts the hash of
every leaf entry (merged with the caller-supplied base fields) into the
set. -/
def hashStyleObject (ctx : CollectorContext) (set : List String) (obj : StyleObject)
    (base : BaseEntry := {}) : List String :=
  let normalized := normalizeKeys ctx.resolveShorthand obj
  let converted := convertFields ctx.breakpoints normalized
  setAddAll set (collectHashes ctx.isCondition base {} (visitsFields conditionSeparator converted "" 0))

/-- The `HashFactory`: the injected collector context together with the six
deduplication registries. -/
structure HashFactory where
  context : CollectorContext
  atomic : List String := []
  compound_variants : List String := []
  recipes : List (String × List String) := []
  recipes_base : List (String × List String) := []
  recipes_slots : List (String × List String) := []
  recipes_slots_base : List (String × List String) := []

/-- `fork()`: a new factory sharing the collector context, with empty registries. -/
def HashFactory.fork (hf : HashFactory) : HashFactory :=
  { context := hf.context }

/-- `isEmpty()`: every registry is empty. -/
def HashFactory.isEmpty (hf : HashFactory) : Bool :=
  hf.atomic.isEmpty && hf.recipes.isEmpty && hf.recipes_slots.isEmpty &&
    hf.compound_variants.isEmpty && hf.recipes_base.isEmpty && hf.recipes_slots_base.isEmpty

/-- Association-list lookup (JS `Map.get`). -/
def alistGet {α : Type} : List (String × α) → String → Option α
  | [], _ => none
  | e :: rest, k => if e.fst == k then some e.snd else alistGet rest k

/-- Association-list update (JS `Map.set`): overwrites the value in place
when the key exists, appends a new entry otherwise (insertion order). -/
def alistSet {α : Type} : List (String × α) → String → α → List (String × α)
  | [], k, v => [(k, v)]
  | e :: rest, k, v => if e.fst == k then (k, v) :: rest else e :: alistSet rest k v

/-- `getOrCreateSet`: the existing set for the key, or a fresh empty one. -/
def getOrCreateSet (m : List (String × List String)) (k : String) : List String :=
  (alistGet m k).getD []

/-- `Object.assign({}, a, b)`: keys of `a` in order (values overridden by
`b` where present), followed by the keys of `b` not present in `a`. -/
def objectAssign (a b : StyleObject) : StyleObject :=
  a.map (fun e =>
      match b.find? (fun e' => e'.fst == e.fst) with
      | some e' => (e.fst, e'.snd)
      | none => e) ++
    b.filter (fun e' => (a.find? (fun e => e.fst == e'.fst)).isNone)

/-- `processAtomic(styles)`: hashes the style object into the `atomic` set. -/
def HashFactory.processAtomic (hf : HashFactory) (styles : StyleObject) : HashFactory :=
  { hf with atomic := hashStyleObject hf.context hf.atomic styles }

/-- `filterProps`: keeps the props that are recognized style properties and
whose value is defined. -/
def filterProps (isValidProperty : String → Bool) (props : StyleObject) : StyleObject :=
  props.filter (fun e => isValidProperty e.fst && !e.snd.isUndef)

/-- `processStyleProps(props)`: filters invalid props (skipped entirely for
template-literal syntax), atomizes a truthy nested `css` sub-object first,
then atomizes the remainder with `css` cleared to `undefined`. -/
def HashFactory.processStyleProps (hf : HashFactory) (styleProps : StyleObject) : HashFactory :=
  let styles :=
    if hf.context.isTemplateLiteralSyntax then styleProps
    else filterProps hf.context.isValidProperty styleProps
  let cssVal := (styles.find? (fun e => e.fst == "css")).map (·.snd)
  match cssVal with
  | some v =>
    if v.truthy then
      let hf := hf.processAtomic (match v with | .obj fields => fields | _ => [])
      hf.processAtomic (styles.map (fun e => if e.fst == "css" then ("css", StyleValue.undef) else e))
    else hf.processAtomic styles
  | none => hf.processAtomic styles

/-- The variants-hashing statement of `processRecipe`: default variants
merged with the caller's selection (caller wins), hashed into
`recipes[name]`. -/
def processRecipeVariants (hf : HashFactory) (recipeName : String) (config : RecipeConfig)
    (variants : StyleObject) : HashFactory :=
  let set := getOrCreateSet hf.recipes recipeName
  let styles := objectAssign config.defaultVariants variants
  { hf with
    recipes := alistSet hf.recipes recipeName
      (hashStyleObject hf.context set styles { recipe := some recipeName }) }

/-- The base-once statement of `processRecipe`: when base styles are
declared and `recipes_base` has no entry for the name yet, hash them into a
fresh `recipes_base[name]`. -/
def processRecipeBase (hf : HashFactory) (recipeName : String) (config : RecipeConfig) :
    HashFactory :=
  match config.base with
  | some b =>
    if (alistGet hf.recipes_base recipeName).isSome then hf
    else { hf with
      recipes_base := alistSet hf.recipes_base recipeName
        (hashStyleObject hf.context [] b { recipe := some recipeName }) }
  | none => hf

/-- The compound-variants-once statement of `processRecipe`: when compound
variants are declared and the name is not yet in the `compound_variants`
set, mark it and atomize every compound variant's css block. -/
def processRecipeCompound (hf : HashFactory) (recipeName : String) (config : RecipeConfig) :
    HashFactory :=
  match config.compoundVariants with
  | some cvs =>
    if recipeName ∈ hf.compound_variants then hf
    else
      let hf := { hf with compound_variants := setAdd hf.compound_variants recipeName }
      cvs.foldl (fun hf css => hf.processAtomic css) hf
  | none => hf

/-- `processRecipe(name, variants)`: no-op for unknown recipes; otherwise
hashes default-merged variants into `recipes[name]`, the base styles once
into `recipes_base[name]`, and the compound variants' css once (guarded by
`compound_variants` membership) into the `atomic` set. -/
def HashFactory.processRecipe (hf : HashFactory) (recipeName : String) (variants : StyleObject) :
    HashFactory :=
  match hf.context.getConfig recipeName with
  | none => hf
  | some config =>
    processRecipeCompound
      (processRecipeBase (processRecipeVariants hf recipeName config variants) recipeName config)
      recipeName config

/-- One iteration of `processSlotRecipe`'s per-slot loop: hashes the
default-merged variants into `recipes_slots[recipe:slot]` and, when the
slot declares base styles not yet processed, hashes them once into
`recipes_slots_base[recipe:slot]`. -/
def processSlotStep (recipeName : String) (config : SlotRecipeConfig) (styles : StyleObject)
    (hf : HashFactory) (slot : String) : HashFactory :=
  let recipeKey := hf.context.getSlotKey recipeName slot
  let set := getOrCreateSet hf.recipes_slots recipeKey
  let hf := { hf with
    recipes_slots := alistSet hf.recipes_slots recipeKey
      (hashStyleObject hf.context set styles { recipe := some recipeName, slot := some slot }) }
  match config.base.bind (fun m => (m.find? (fun e => e.fst == slot)).map (·.snd)) with
  | some slotBase =>
    if (alistGet hf.recipes_slots_base recipeKey).isSome then hf
    else { hf with
      recipes_slots_base := alistSet hf.recipes_slots_base recipeKey
        (hashStyleObject hf.context [] slotBase
          { recipe := some recipeName, slot := some slot }) }
  | none => hf

/-- Atomizes one slot-recipe compound variant: every slot's css block of
the compound variant goes into the plain atomic set
(`Object.values(compoundVariant.css)`, missing blocks default to `{}`). -/
def processSlotCompound (hf : HashFactory) (css : List (String × Option StyleObject)) :
    HashFactory :=
  (css.map (·.snd)).foldl (fun hf styles => hf.processAtomic (styles.getD [])) hf

/-- The compound-variants-once statement of `processSlotRecipe`: when
compound variants are declared and the name is not yet in the
`compound_variants` set, mark it and atomize every compound variant's
per-slot css blocks. -/
def processSlotRecipeCompound (hf : HashFactory) (recipeName : String)
    (config : SlotRecipeConfig) : HashFactory :=
  match config.compoundVariants with
  | some cvs =>
    if recipeName ∈ hf.compound_variants then hf
    else
      let hf := { hf with compound_variants := setAdd hf.compound_variants recipeName }
      cvs.foldl processSlotCompound hf
  | none => hf

/-- `processSlotRecipe(name, variants)`: no-op for unknown recipes;
otherwise, per declared slot, hashes default-merged variants into
`recipes_slots[recipe:slot]` and the slot's base once into
`recipes_slots_base[recipe:slot]`; then atomizes each compound variant's
per-slot css blocks once (guarded by `compound_variants` membership). -/
def HashFactory.processSlotRecipe (hf : HashFactory) (recipeName : String)
    (variants : StyleObject) : HashFactory :=
  match hf.context.getSlotConfig recipeName with
  | none => hf
  | some config =>
    let styles := objectAssign config.defaultVariants variants
    processSlotRecipeCompound (config.slots.foldl (processSlotStep recipeName config styles) hf)
      recipeName config

/-- `processPattern(name, props, type, jsxName)`: resolves the pattern
function name (through the JSX alias when applicable), applies the
pattern's transform to the raw props, and delegates to
`processStyleProps`.  Modelled from the spec for the injected pattern
provider (not under `src/`): an unknown pattern name transforms to an
empty style-props object (silently ignored). -/
def HashFactory.processPattern (hf : HashFactory) (name : String) (patternProps : StyleObject)
    (isJsxPattern : Bool := false) (jsxName : Option String := none) : HashFactory :=
  let fnName :=
    if isJsxPattern && optTruthy jsxName then hf.context.getPatternFnName (jsxName.getD "")
    else name
  let styleProps :=
    match hf.context.getPatternTransform fnName with
    | some transform => transform patternProps
    | none => []
  hf.processStyleProps styleProps

/-- `processAtomicRecipe(recipe)`: atomizes the base, every value of every
variant axis, and every compound variant's css. -/
def HashFactory.processAtomicRecipe (hf : HashFactory)
    (base : StyleObject) (variants : List (String × List (String × StyleObject)))
    (compoundVariants : List StyleObject) : HashFactory :=
  let hf := hf.processAtomic base
  let hf := variants.foldl (fun hf variant =>
    variant.snd.foldl (fun hf styles => hf.processAtomic styles.snd) hf) hf
  compoundVariants.foldl (fun hf css => hf.processAtomic css) hf

/-! ## The builder (incremental orchestrator)

File paths are modelled as already-absolute strings (`resolve` is the
identity), and modification times as `Option Int`: `some t` is `mtimeMs`
of an existing file, `none` is the `-Infinity` used for a missing file.
The per-file extraction runs under a concurrency bound in the source; the
single-threaded cooperative model makes its observable per-file behavior
the sequential one embedded here. -/

/-- `ContentData`: per-context cache of every processed file's accumulated
CSS fragment and last-seen modification time. -/
structure ContentData where
  fileCssMap : List (String × String) := []
  fileModifiedMap : List (String × Option Int) := []

/-- The opaque build context, reduced to what the builder reads from it:
an identity and its declared dependency files. -/
structure PandaContext where
  id : Nat := 0
  dependencies : List String := []

/-- The external collaborators consumed by the builder: file modification
times (`none` = missing file), the per-file extractor (`none` = the file
yields no style usage), merge of CSS fragments, the configuration
dependency scanner and the config loader. -/
structure BuilderEnv where
  fsMtime : String → Option Int
  extractFile : String → Option String := fun _ => none
  mergeCss : String → String → String := fun _ new => new
  getConfigDeps : String → List String := fun _ => []
  loadContext : String → PandaContext := fun _ => {}

/-- `ConfigData`: one config-cache entry — the compiled context, its
dependency set, and the last-seen modification-time snapshot (the snapshot
is absent when the entry was created from an undefined comparison map). -/
structure ConfigData where
  context : PandaContext
  deps : List String := []
  depsModifiedMap : Option (List (String × Int)) := none

/-- The builder's own mutable fields. -/
structure BuilderState where
  context : Option PandaContext := none
  hasEmitted : Bool := false
  hasConfigChanged : Bool := false
  configDependencies : List String := []

/-- `writeFileCss`: merges the new fragment into the file's accumulated one. -/
def writeFileCss (mergeCss : String → String → String) (cd : ContentData)
    (file css : String) : ContentData :=
  let oldCss := (alistGet cd.fileCssMap file).getD ""
  { cd with fileCssMap := alistSet cd.fileCssMap file (mergeCss oldCss css) }

/-- `Builder.extractFile` on the content cache: skip when the current
modification time equals the recorded one; otherwise parse, and — when a
truthy CSS fragment results — record the modification time and merge the
fragment.  The second component reports whether the external extractor was
invoked. -/
def extractFileStep (env : BuilderEnv) (cd : ContentData) (file : String) :
    ContentData × Bool :=
  let mtime : Option Int := env.fsMtime file
  let modEntry := alistGet cd.fileModifiedMap file
  let isUnchanged := modEntry.isSome && modEntry == some mtime
  if isUnchanged then (cd, false)
  else
    match env.extractFile file with
    | none => (cd, true)
    | some css =>
      if css == "" then (cd, true)
      else
        let cd := { cd with fileModifiedMap := alistSet cd.fileModifiedMap file mtime }
        (writeFileCss env.mergeCss cd file css, true)

/-- `Builder.extract`: processes every in-scope file (sequentialized from
the bounded-concurrency pool). -/
def extractAll (env : BuilderEnv) (cd : ContentData) (files : List String) : ContentData :=
  files.foldl (fun cd file => (extractFileStep env cd file).fst) cd

/-- `Builder.checkConfigDeps`: compares every dependency file's current
modification time against the last-recorded snapshot; missing files are
skipped; the configuration counts as modified when some existing dependency
has no previous record (or there is no previous snapshot at all) or a
strictly newer time.  Returns the `isModified` flag and the map to record:
the fresh one when modified, the previous one otherwise.  (The source also
drops the dependencies from `require.cache` when modified — an external
module-cache side effect not modelled here.)  `checkDepStep` is the loop
body for one dependency file. -/
def checkDepStep (fsMtime : String → Option Int) (prev : Option (List (String × Int)))
    (acc : Bool × List (String × Int)) (file : String) : Bool × List (String × Int) :=
  match fsMtime file with
  | none => acc
  | some time =>
    let stale :=
      match prev with
      | none => true
      | some pm =>
        match alistGet pm file with
        | none => true
        | some pt => time > pt
    (acc.fst || stale, alistSet acc.snd file time)

/-- `Builder.checkConfigDeps`, assembled: folds the per-file comparison
over the dependency set and reports the modified flag together with the
map to record (the fresh snapshot when modified, the previous one
otherwise). -/
def checkConfigDeps (fsMtime : String → Option Int)
    (prev : Option (List (String × Int))) (deps : List String) :
    Bool × Option (List (String × Int)) :=
  let res := deps.foldl (checkDepStep fsMtime prev) (false, [])
  if !res.fst then (false, prev) else (true, some res.snd)

/-- The observable outcome of one `setup()` call. -/
structure SetupResult where
  builder : BuilderState
  cache : List (String × ConfigData)
  /-- The configuration-modified branch ran: the context was rebuilt, the
  cache entry replaced, and the `config:change` hook notified. -/
  rebuilt : Bool
  /-- The no-prior-cache fallback ran: a fresh context was built
  unconditionally. -/
  builtFresh : Bool
  /-- How many times `loadConfigAndCreateContext` was invoked. -/
  contextLoads : Nat
  /-- Whether the cached context's source-file list was refreshed
  (`project.reloadSourceFiles()`). -/
  sourceFilesReloaded : Bool

/-- The full configuration-dependency set computed at the start of
`setup()`: the dependency scanner's output plus the current context's own
declared dependencies, deduplicated in first-insertion order (paths are
modelled as already resolved to absolute form). -/
def setupConfigDeps (env : BuilderEnv) (b : BuilderState) (configPath : String) : List String :=
  setAddAll []
    (env.getConfigDeps configPath ++ (match b.context with | some c => c.dependencies | none => []))

/-- `Builder.setupContext` as a cache entry: the freshly loaded context
with its dependency list and the modification-time snapshot to record.
(The source also initializes an empty `ContentData` for the new context in
the content cache.) -/
def setupContextEntry (ctx : PandaContext) (modifiedMap : Option (List (String × Int))) :
    ConfigData :=
  { context := ctx, deps := ctx.dependencies, depsModifiedMap := modifiedMap }

/-- `Builder.setup`: computes the full dependency set, compares
modification times, and either rebuilds the context (when modified —
replacing the cache entry and notifying the `config:change` hook), reuses
the cached one (refreshing its source-file list), or builds a fresh one
when no cache entry exists. -/
def setup (env : BuilderEnv) (cache : List (String × ConfigData)) (b : BuilderState)
    (configPath : String) : SetupResult :=
  let configDeps := setupConfigDeps env b configPath
  let b1 := { b with configDependencies := configDeps }
  let prev := (alistGet cache configPath).bind (·.depsModifiedMap)
  let isModified := (checkConfigDeps env.fsMtime prev configDeps).fst
  let modifiedMap := (checkConfigDeps env.fsMtime prev configDeps).snd
  let b2 := { b1 with hasConfigChanged := isModified }
  let loaded := if isModified then some (env.loadContext configPath) else none
  let b3 := match loaded with
    | some ctx => { b2 with context := some ctx }
    | none => b2
  let cache1 := match loaded with
    | some ctx => alistSet cache configPath (setupContextEntry ctx modifiedMap)
    | none => cache
  let loads := match loaded with | some _ => 1 | none => 0
  match alistGet cache1 configPath with
  | some cd =>
    { builder := { b3 with context := some cd.context }, cache := cache1,
      rebuilt := isModified, builtFresh := false, contextLoads := loads,
      sourceFilesReloaded := true }
  | none =>
    let ctx := env.loadContext configPath
    { builder := { b3 with context := some ctx },
      cache := alistSet cache1 configPath (setupContextEntry ctx modifiedMap),
      rebuilt := isModified, builtFresh := true, contextLoads := loads + 1,
      sourceFilesReloaded := false }

/-- `Builder.emit`: invokes the artifact emitter only when a prior emit has
occurred and the most recent `setup()` detected a configuration change;
always records that emission has now occurred.  The second component
reports whether the emitter was invoked; accessing the context without one
loaded fails (`getContextOrThrow`). -/
def emit (b : BuilderState) : Except String (BuilderState × Bool) :=
  if b.hasEmitted && b.hasConfigChanged then
    match b.context with
    | none => .error "context not loaded"
    | some _ => .ok ({ b with hasEmitted := true }, true)
  else .ok ({ b with hasEmitted := true }, false)

/-! ## A concrete collector context

Modelled from the spec's description of the conditions engine (an external
collaborator): the responsive breakpoints and underscore-prefixed
pseudo-conditions are condition keys, and the placeholder `base` slot is
recognized as a condition key that carries no selector information. -/

/-- A default-like condition predicate used to instantiate the engine on
the spec's concrete scenarios. -/
def demoIsCondition (k : String) : Bool :=
  k == "base" || k == "sm" || k == "md" || k == "lg" || k == "xl" || strStartsWith k "_"

/-- A concrete collector context with the default breakpoint scale and no
shorthands, recipes or patterns registered. -/
def demoContext : CollectorContext :=
  { isCondition := demoIsCondition
    breakpoints := ["base", "sm", "md", "lg", "xl"] }

/-- A fresh hash factory over `demoContext`. -/
def demoFactory : HashFactory := { context := demoContext }

/-! ## Claims -/

/-- C1: for the input `{ mx: { base: 1, sm: 2, lg: 3 } }`, `processAtomic`
adds exactly three entries to the atomic registry: prop `mx` with no
condition and value `1`, prop `mx` under `sm` with value `2`, and prop `mx`
under `lg` with value `3`. -/
theorem claim_C1_mx_responsive_entries :
    (demoFactory.processAtomic
        [("mx", .obj [("base", .num 1), ("sm", .num 2), ("lg", .num 3)])]).atomic
      = [hashStyleEntry { prop := "mx", value := .num 1, cond := some "" },
         hashStyleEntry { prop := "mx", value := .num 2, cond := some "sm" },
         hashStyleEntry { prop := "mx", value := .num 3, cond := some "lg" }] ∧
    (demoFactory.processAtomic
        [("mx", .obj [("base", .num 1), ("sm", .num 2), ("lg", .num 3)])]).atomic.length = 3 := by
  constructor
  · decide
  · decide

/-- The condition resolver as claim C2 literally words it: split on the
separator, drop the first segment when that segment is not a condition key,
then filter out base markers, and rejoin when the segment count changed. -/
def getResolvedConditionClaimed (cond : String) (isCondition : String → Bool) : String :=
  if cond == "" then ""
  else
    let parts := strSplitOn cond conditionSeparator
    let afterDrop := if !isCondition (parts.headD "") then parts.drop 1 else parts
    let relevantParts := filterBaseConditions afterDrop
    if parts.length != relevantParts.length then
      strJoin conditionSeparator relevantParts
    else cond

/-- C2 counterexample: on the path `base<___>x<___>y` with a predicate that
recognizes no condition keys, the code filters the base marker first and
then drops the first segment of the *filtered* list, returning `y`, while
the claim's drop-first-then-filter order would return `x<___>y`. -/
theorem claim_C2_counterexample :
    getResolvedCondition ("base" ++ conditionSeparator ++ "x" ++ conditionSeparator ++ "y")
        (fun _ => false) = "y" ∧
    getResolvedConditionClaimed ("base" ++ conditionSeparator ++ "x" ++ conditionSeparator ++ "y")
        (fun _ => false) = "x" ++ conditionSeparator ++ "y" ∧
    getResolvedCondition ("base" ++ conditionSeparator ++ "x" ++ conditionSeparator ++ "y")
        (fun _ => false)
      ≠ getResolvedConditionClaimed ("base" ++ conditionSeparator ++ "x" ++ conditionSeparator ++ "y")
        (fun _ => false) := by
  refine ⟨by decide, by decide, by decide⟩

/-- The condition-resolution algorithm as amended: split on the separator;
filter out base-marker segments; then drop the first segment of the
*filtered* list when the original first segment is nonempty and not a
condition key; rejoin with the separator when the remaining segment count
is smaller than the split count, otherwise return the input unchanged;
empty input yields empty output. -/
def getResolvedConditionAmended (cond : String) (isCondition : String → Bool) : String :=
  if cond == "" then ""
  else
    let parts := strSplitOn cond conditionSeparator
    let first := parts.headD ""
    let relevantParts := filterBaseConditions parts
    let relevantParts := if first != "" && !isCondition first then relevantParts.drop 1 else relevantParts
    if relevantParts.length < parts.length then
      strJoin conditionSeparator relevantParts
    else cond

/-- The final rejoin-or-return-unchanged choice can test `count changed`
or `count decreased` interchangeably once the remaining count is bounded by
the original count. -/
theorem resolved_tail_eq (parts rel : List String) (hle : rel.length ≤ parts.length)
    (j alt : String) :
    (if parts.length != rel.length then j else alt)
      = (if rel.length < parts.length then j else alt) := by
  rcases eq_or_lt_of_le hle with he | hl
  · simp [he]
  · simp [hl, (Nat.ne_of_gt hl)]

/-- C2 (amended): for every path and condition predicate, the resolver
returns empty on empty input; otherwise it splits on the condition
separator, filters out base-marker segments, drops the first remaining
segment when the original first segment is nonempty and not a condition
key, and returns the rejoined remainder when the segment count shrank, or
the original string unchanged otherwise. -/
theorem claim_C2_amended_resolver (cond : String) (isCondition : String → Bool) :
    getResolvedCondition cond isCondition = getResolvedConditionAmended cond isCondition := by
  by_cases h1 : (cond == "") = true
  · simp [getResolvedCondition, getResolvedConditionAmended, h1]
  · simp only [getResolvedCondition, getResolvedConditionAmended, h1, if_false,
      Bool.false_eq_true]
    apply resolved_tail_eq
    split
    · calc ((filterBaseConditions (strSplitOn cond conditionSeparator)).drop 1).length
          ≤ (filterBaseConditions (strSplitOn cond conditionSeparator)).length :=
            (List.length_drop _ _) ▸ Nat.sub_le _ _
        _ ≤ (strSplitOn cond conditionSeparator).length := List.length_filter_le _ _
    · exact List.length_filter_le _ _

/-- C10: the hash key embeds the value through string coercion and omits
the empty/absent `cond`, `recipe`, `layer` and `slot` parts: two entries
agreeing on `prop`, `cond`, `recipe`, `layer` and `slot` whose values have
the same string representation produce identical keys; and an entry whose
`cond` is the empty string hashes identically to the same entry with no
`cond` at all. -/
theorem claim_C10_hash_key_coercion (e₁ e₂ : StyleEntry)
    (hp : e₁.prop = e₂.prop) (hv : valueToString e₁.value = valueToString e₂.value)
    (hc : e₁.cond = e₂.cond) (hr : e₁.recipe = e₂.recipe) (hl : e₁.layer = e₂.layer)
    (hs : e₁.slot = e₂.slot) :
    hashStyleEntry e₁ = hashStyleEntry e₂ ∧
    (∀ e : StyleEntry, hashStyleEntry { e with cond := some "" }
      = hashStyleEntry { e with cond := none }) := by
  constructor
  · simp only [hashStyleEntry, hp, hv, hc, hr, hl, hs]
  · intro e
    simp [hashStyleEntry, optTruthy]

/-- C10 witness: the number `4` and the string `"4"` coerce to the same
string, so the two entries deduplicate to a single key. -/
theorem claim_C10_witness :
    hashStyleEntry { prop := "p", value := .num 4 } = hashStyleEntry { prop := "p", value := .str "4" } ∧
    hashStyleEntry { prop := "p", value := .num 4, cond := some "" }
      = hashStyleEntry { prop := "p", value := .num 4, cond := none } := by
  have h := claim_C10_hash_key_coercion
    { prop := "p", value := .num 4 } { prop := "p", value := .str "4" }
    rfl (by decide) rfl rfl rfl rfl
  exact ⟨h.1, h.2 { prop := "p", value := .num 4 }⟩

/-- The first reordering witness for C5: a property with a responsive base
value followed by a top-level condition key holding a raw leaf value. -/
def permObjA : StyleObject := [("p", .obj [("base", .num 1)]), ("_hover", .num 2)]

/-- The same key-value pairs as `permObjA` in the opposite order. -/
def permObjB : StyleObject := [("_hover", .num 2), ("p", .obj [("base", .num 1)])]

/-- C5 counterexample: `permObjA` and `permObjB` hold the same key-value
pairs in different orders, yet hashing them into fresh registries yields
different hash sets — once the leading `_hover: 2` leaf is visited before
any property, it is attached to the empty property name, producing a hash
that the other order never produces. -/
theorem claim_C5_counterexample :
    permObjA.Perm permObjB ∧
    hashStyleEntry { prop := "", value := .num 2, cond := some "_hover" }
        ∈ (demoFactory.processAtomic permObjB).atomic ∧
    hashStyleEntry { prop := "", value := .num 2, cond := some "_hover" }
        ∉ (demoFactory.processAtomic permObjA).atomic := by
  refine ⟨List.Perm.swap _ _ _, by decide, by decide⟩

/-- C5 (amended): the hashing pass is deterministic — hashing a fixed style
object into fresh registries forked from factories sharing the same
collector context yields identical hash sets (key-order independence of the
input object does not hold in general, per the counterexample). -/
theorem claim_C5_amended_determinism (hf₁ hf₂ : HashFactory) (obj : StyleObject)
    (h : hf₁.context = hf₂.context) :
    (hf₁.fork.processAtomic obj).atomic = (hf₂.fork.processAtomic obj).atomic := by
  simp [HashFactory.fork, HashFactory.processAtomic, h]

/-- C5 witness: two factories with identical contexts but different
accumulated registries produce the same hashes for the same object when
forked afresh. -/
theorem claim_C5_witness :
    ((demoFactory.processAtomic [("m", .num 1)]).fork.processAtomic [("p", .num 4)]).atomic
      = (demoFactory.fork.processAtomic [("p", .num 4)]).atomic :=
  claim_C5_amended_determinism _ _ _ rfl

/-! ### Registry bookkeeping lemmas -/

theorem alistGet_set_self {α : Type} (m : List (String × α)) (k : String) (v : α) :
    alistGet (alistSet m k v) k = some v := by
  induction m with
  | nil => simp [alistGet, alistSet]
  | cons e rest ih =>
    by_cases h : (e.fst == k) = true
    · simp [alistSet, alistGet, h]
    · simp [alistSet, alistGet, h, ih]

theorem mem_setAdd_self (s : List String) (x : String) : x ∈ setAdd s x := by
  by_cases h : x ∈ s
  · simp [setAdd, h]
  · simp [setAdd, h]

theorem processAtomic_context (hf : HashFactory) (s : StyleObject) :
    (hf.processAtomic s).context = hf.context := rfl

theorem processAtomic_recipes_base (hf : HashFactory) (s : StyleObject) :
    (hf.processAtomic s).recipes_base = hf.recipes_base := rfl

theorem processAtomic_compound_variants (hf : HashFactory) (s : StyleObject) :
    (hf.processAtomic s).compound_variants = hf.compound_variants := rfl

theorem foldl_processAtomic_inv (l : List StyleObject) (hf : HashFactory) :
    (l.foldl (fun h css => h.processAtomic css) hf).context = hf.context ∧
    (l.foldl (fun h css => h.processAtomic css) hf).recipes_base = hf.recipes_base ∧
    (l.foldl (fun h css => h.processAtomic css) hf).compound_variants = hf.compound_variants := by
  induction l generalizing hf with
  | nil => exact ⟨rfl, rfl, rfl⟩
  | cons c rest ih => simp only [List.foldl_cons]; exact ih (hf.processAtomic c)

theorem foldl_processAtomic_atomic (l : List StyleObject) (hf : HashFactory) :
    (l.foldl (fun h css => h.processAtomic css) hf).atomic
      = l.foldl (fun s css => hashStyleObject hf.context s css) hf.atomic := by
  induction l generalizing hf with
  | nil => rfl
  | cons c rest ih =>
    simp only [List.foldl_cons]
    rw [ih (hf.processAtomic c)]
    rfl

/-! ### Stage lemmas for `processRecipe` -/

theorem processRecipeBase_context (hf : HashFactory) (n : String) (config : RecipeConfig) :
    (processRecipeBase hf n config).context = hf.context := by
  unfold processRecipeBase
  split
  · split <;> rfl
  · rfl

theorem processRecipeBase_atomic (hf : HashFactory) (n : String) (config : RecipeConfig) :
    (processRecipeBase hf n config).atomic = hf.atomic := by
  unfold processRecipeBase
  split
  · split <;> rfl
  · rfl

theorem processRecipeBase_compound_variants (hf : HashFactory) (n : String)
    (config : RecipeConfig) :
    (processRecipeBase hf n config).compound_variants = hf.compound_variants := by
  unfold processRecipeBase
  split
  · split <;> rfl
  · rfl

theorem processRecipeBase_first (hf : HashFactory) (n : String) (config : RecipeConfig)
    (b : StyleObject) (hb : config.base = some b) (hnew : alistGet hf.recipes_base n = none) :
    (processRecipeBase hf n config).recipes_base
      = alistSet hf.recipes_base n (hashStyleObject hf.context [] b { recipe := some n }) := by
  unfold processRecipeBase
  rw [hb]
  simp [hnew]

theorem processRecipeBase_stable (hf : HashFactory) (n : String) (config : RecipeConfig)
    (hsome : (alistGet hf.recipes_base n).isSome) :
    (processRecipeBase hf n config).recipes_base = hf.recipes_base := by
  unfold processRecipeBase
  split
  · simp [hsome]
  · rfl

theorem processRecipeCompound_context (hf : HashFactory) (n : String) (config : RecipeConfig) :
    (processRecipeCompound hf n config).context = hf.context := by
  unfold processRecipeCompound
  split
  · split
    · rfl
    · exact (foldl_processAtomic_inv _ _).1
  · rfl

theorem processRecipeCompound_recipes_base (hf : HashFactory) (n : String)
    (config : RecipeConfig) :
    (processRecipeCompound hf n config).recipes_base = hf.recipes_base := by
  unfold processRecipeCompound
  split
  · split
    · rfl
    · exact (foldl_processAtomic_inv _ _).2.1
  · rfl

theorem processRecipeCompound_of_mem (hf : HashFactory) (n : String) (config : RecipeConfig)
    (hmem : n ∈ hf.compound_variants) :
    processRecipeCompound hf n config = hf := by
  unfold processRecipeCompound
  split
  · simp [hmem]
  · rfl

theorem processRecipeCompound_first (hf : HashFactory) (n : String) (config : RecipeConfig)
    (cvs : List StyleObject) (hcv : config.compoundVariants = some cvs)
    (hnew : n ∉ hf.compound_variants) :
    processRecipeCompound hf n config
      = cvs.foldl (fun h css => h.processAtomic css)
          { hf with compound_variants := setAdd hf.compound_variants n } := by
  unfold processRecipeCompound
  rw [hcv]
  simp [hnew]

/-! ### `processRecipe`-level lemmas -/

theorem processRecipe_base_first (hf : HashFactory) (n : String) (config : RecipeConfig)
    (b : StyleObject) (v : StyleObject) (hcfg : hf.context.getConfig n = some config)
    (hb : config.base = some b) (hnew : alistGet hf.recipes_base n = none) :
    alistGet (hf.processRecipe n v).recipes_base n
      = some (hashStyleObject hf.context [] b { recipe := some n }) := by
  unfold HashFactory.processRecipe
  simp only [hcfg]
  rw [processRecipeCompound_recipes_base,
    processRecipeBase_first (processRecipeVariants hf n config v) n config b hb hnew]
  exact alistGet_set_self _ _ _

theorem processRecipe_base_stable (hf : HashFactory) (n : String) (v : StyleObject)
    (hsome : (alistGet hf.recipes_base n).isSome) :
    (hf.processRecipe n v).recipes_base = hf.recipes_base := by
  unfold HashFactory.processRecipe
  cases hcfg : hf.context.getConfig n with
  | none => rfl
  | some config =>
    rw [processRecipeCompound_recipes_base,
      processRecipeBase_stable (processRecipeVariants hf n config v) n config hsome]
    rfl

theorem foldl_processRecipe_base_stable (vs : List StyleObject) (hf : HashFactory)
    (name : String) (S : List String) (hsome : alistGet hf.recipes_base name = some S) :
    alistGet ((vs.foldl (fun h vv => h.processRecipe name vv) hf).recipes_base) name = some S := by
  induction vs generalizing hf with
  | nil => simpa using hsome
  | cons v rest ih =>
    simp only [List.foldl_cons]
    apply ih
    rw [processRecipe_base_stable hf name v (by simp [hsome])]
    exact hsome

/-- C3: for a recipe with declared base styles not yet processed, the first
`processRecipe` call populates `recipes_base[name]` with the base hashes,
and any sequence of later `processRecipe` calls for the same name (with
arbitrary variant selections) leaves `recipes_base[name]` unchanged. -/
theorem claim_C3_recipe_base_once (hf : HashFactory) (name : String) (config : RecipeConfig)
    (b : StyleObject) (v : StyleObject) (vs : List StyleObject)
    (hcfg : hf.context.getConfig name = some config) (hbase : config.base = some b)
    (hnew : alistGet hf.recipes_base name = none) :
    alistGet (hf.processRecipe name v).recipes_base name
        = some (hashStyleObject hf.context [] b { recipe := some name }) ∧
    alistGet ((vs.foldl (fun h vv => h.processRecipe name vv)
          (hf.processRecipe name v)).recipes_base) name
        = some (hashStyleObject hf.context [] b { recipe := some name }) := by
  have h1 := processRecipe_base_first hf name config b v hcfg hbase hnew
  exact ⟨h1, foldl_processRecipe_base_stable vs _ name _ h1⟩

/-- A collector context extending `demoContext` with one plain recipe
(`button`) declaring base styles, a default variant and one compound
variant, for exercising the recipe paths on concrete inputs. -/
def recipeContext : CollectorContext :=
  { demoContext with
    getConfig := fun name =>
      if name == "button" then
        some { base := some [("fontWeight", .str "bold")]
               defaultVariants := [("size", .str "sm")]
               compoundVariants := some [[("color", .str "red")]] }
      else none }

/-- A fresh factory over `recipeContext`. -/
def recipeFactory : HashFactory := { context := recipeContext }

/-- C3 witness: processing `button` with one variant selection populates
`recipes_base["button"]` with the base hash, and a later call with a
different selection leaves it unchanged. -/
theorem claim_C3_witness :
    alistGet (recipeFactory.processRecipe "button" [("size", .str "md")]).recipes_base "button"
        = some (hashStyleObject recipeContext [] [("fontWeight", .str "bold")]
            { recipe := some "button" }) ∧
    alistGet (([[("size", StyleValue.str "lg")]].foldl (fun h vv => h.processRecipe "button" vv)
          (recipeFactory.processRecipe "button" [("size", .str "md")])).recipes_base) "button"
        = some (hashStyleObject recipeContext [] [("fontWeight", .str "bold")]
            { recipe := some "button" }) :=
  claim_C3_recipe_base_once recipeFactory "button" _ _ _ _ rfl rfl rfl

/-! ### Compound-variant lemmas -/

theorem processRecipe_compound_first (hf : HashFactory) (n : String) (config : RecipeConfig)
    (cvs : List StyleObject) (v : StyleObject)
    (hcfg : hf.context.getConfig n = some config)
    (hcv : config.compoundVariants = some cvs)
    (hnew : n ∉ hf.compound_variants) :
    n ∈ (hf.processRecipe n v).compound_variants ∧
    (hf.processRecipe n v).atomic
      = cvs.foldl (fun s css => hashStyleObject hf.context s css) hf.atomic := by
  unfold HashFactory.processRecipe
  simp only [hcfg]
  have hbA : (processRecipeBase (processRecipeVariants hf n config v) n config).atomic
      = hf.atomic := by
    rw [processRecipeBase_atomic]; rfl
  have hbC : (processRecipeBase (processRecipeVariants hf n config v) n config).context
      = hf.context := by
    rw [processRecipeBase_context]; rfl
  have hbCV : (processRecipeBase (processRecipeVariants hf n config v) n config).compound_variants
      = hf.compound_variants := by
    rw [processRecipeBase_compound_variants]; rfl
  rw [processRecipeCompound_first _ n config cvs hcv (by rw [hbCV]; exact hnew)]
  constructor
  · rw [(foldl_processAtomic_inv _ _).2.2]
    show n ∈ setAdd
      (processRecipeBase (processRecipeVariants hf n config v) n config).compound_variants n
    exact mem_setAdd_self _ _
  · rw [foldl_processAtomic_atomic]
    show cvs.foldl (fun s css => hashStyleObject
        (processRecipeBase (processRecipeVariants hf n config v) n config).context s css)
      (processRecipeBase (processRecipeVariants hf n config v) n config).atomic = _
    rw [hbA, hbC]

theorem processRecipe_of_mem (hf : HashFactory) (n : String) (v : StyleObject)
    (hmem : n ∈ hf.compound_variants) :
    (hf.processRecipe n v).atomic = hf.atomic ∧
    n ∈ (hf.processRecipe n v).compound_variants := by
  unfold HashFactory.processRecipe
  cases hcfg : hf.context.getConfig n with
  | none => exact ⟨rfl, hmem⟩
  | some config =>
    have hbA : (processRecipeBase (processRecipeVariants hf n config v) n config).atomic
        = hf.atomic := by
      rw [processRecipeBase_atomic]; rfl
    have hbCV :
        (processRecipeBase (processRecipeVariants hf n config v) n config).compound_variants
          = hf.compound_variants := by
      rw [processRecipeBase_compound_variants]; rfl
    have hmem2 : n ∈ (processRecipeBase (processRecipeVariants hf n config v)
        n config).compound_variants := by
      rw [hbCV]; exact hmem
    show (processRecipeCompound
        (processRecipeBase (processRecipeVariants hf n config v) n config) n config).atomic
        = hf.atomic ∧
      n ∈ (processRecipeCompound
        (processRecipeBase (processRecipeVariants hf n config v) n config) n
        config).compound_variants
    rw [processRecipeCompound_of_mem
      (processRecipeBase (processRecipeVariants hf n config v) n config) n config hmem2]
    exact ⟨hbA, hmem2⟩

theorem processSlotStep_inv (rn : String) (config : SlotRecipeConfig) (styles : StyleObject)
    (hf : HashFactory) (slot : String) :
    (processSlotStep rn config styles hf slot).atomic = hf.atomic ∧
    (processSlotStep rn config styles hf slot).compound_variants = hf.compound_variants ∧
    (processSlotStep rn config styles hf slot).context = hf.context := by
  simp only [processSlotStep]
  split
  · split <;> exact ⟨rfl, rfl, rfl⟩
  · exact ⟨rfl, rfl, rfl⟩

theorem foldl_slotStep_inv (slots : List String) (rn : String) (config : SlotRecipeConfig)
    (styles : StyleObject) (hf : HashFactory) :
    (slots.foldl (processSlotStep rn config styles) hf).atomic = hf.atomic ∧
    (slots.foldl (processSlotStep rn config styles) hf).compound_variants
      = hf.compound_variants ∧
    (slots.foldl (processSlotStep rn config styles) hf).context = hf.context := by
  induction slots generalizing hf with
  | nil => exact ⟨rfl, rfl, rfl⟩
  | cons s rest ih =>
    simp only [List.foldl_cons]
    obtain ⟨h1, h2, h3⟩ := processSlotStep_inv rn config styles hf s
    obtain ⟨g1, g2, g3⟩ := ih (processSlotStep rn config styles hf s)
    exact ⟨g1.trans h1, g2.trans h2, g3.trans h3⟩

theorem processSlotRecipeCompound_of_mem (hf : HashFactory) (n : String)
    (config : SlotRecipeConfig) (hmem : n ∈ hf.compound_variants) :
    processSlotRecipeCompound hf n config = hf := by
  unfold processSlotRecipeCompound
  split
  · simp [hmem]
  · rfl

theorem processSlotRecipe_of_mem (hf : HashFactory) (n : String) (v : StyleObject)
    (hmem : n ∈ hf.compound_variants) :
    (hf.processSlotRecipe n v).atomic = hf.atomic ∧
    n ∈ (hf.processSlotRecipe n v).compound_variants := by
  unfold HashFactory.processSlotRecipe
  cases hcfg : hf.context.getSlotConfig n with
  | none => exact ⟨rfl, hmem⟩
  | some config =>
    obtain ⟨hA, hCV, -⟩ :=
      foldl_slotStep_inv config.slots n config (objectAssign config.defaultVariants v) hf
    have hmem2 : n ∈ (config.slots.foldl
        (processSlotStep n config (objectAssign config.defaultVariants v)) hf).compound_variants := by
      rw [hCV]; exact hmem
    show (processSlotRecipeCompound
        (config.slots.foldl (processSlotStep n config (objectAssign config.defaultVariants v)) hf)
        n config).atomic = hf.atomic ∧
      n ∈ (processSlotRecipeCompound
        (config.slots.foldl (processSlotStep n config (objectAssign config.defaultVariants v)) hf)
        n config).compound_variants
    rw [processSlotRecipeCompound_of_mem
      (config.slots.foldl (processSlotStep n config (objectAssign config.defaultVariants v)) hf)
      n config hmem2]
    exact ⟨hA, hmem2⟩

theorem foldl_processAtomicGetD_inv (l : List (Option StyleObject)) (hf : HashFactory) :
    (l.foldl (fun h styles => h.processAtomic (styles.getD [])) hf).context = hf.context ∧
    (l.foldl (fun h styles => h.processAtomic (styles.getD [])) hf).compound_variants
      = hf.compound_variants := by
  induction l generalizing hf with
  | nil => exact ⟨rfl, rfl⟩
  | cons c rest ih =>
    simp only [List.foldl_cons]
    exact ih (hf.processAtomic (c.getD []))

theorem foldl_processAtomicGetD_atomic (l : List (Option StyleObject)) (hf : HashFactory) :
    (l.foldl (fun h styles => h.processAtomic (styles.getD [])) hf).atomic
      = l.foldl (fun s styles => hashStyleObject hf.context s (styles.getD [])) hf.atomic := by
  induction l generalizing hf with
  | nil => rfl
  | cons c rest ih =>
    simp only [List.foldl_cons]
    rw [ih (hf.processAtomic (c.getD []))]
    rfl

theorem processSlotCompound_context (hf : HashFactory)
    (css : List (String × Option StyleObject)) :
    (processSlotCompound hf css).context = hf.context := by
  unfold processSlotCompound
  exact (foldl_processAtomicGetD_inv _ hf).1

theorem processSlotCompound_compound_variants (hf : HashFactory)
    (css : List (String × Option StyleObject)) :
    (processSlotCompound hf css).compound_variants = hf.compound_variants := by
  unfold processSlotCompound
  exact (foldl_processAtomicGetD_inv _ hf).2

theorem processSlotCompound_atomic (hf : HashFactory)
    (css : List (String × Option StyleObject)) :
    (processSlotCompound hf css).atomic
      = (css.map (·.snd)).foldl
          (fun s styles => hashStyleObject hf.context s (styles.getD [])) hf.atomic := by
  unfold processSlotCompound
  exact foldl_processAtomicGetD_atomic _ hf

theorem foldl_slotCompound_inv (cvs : List (List (String × Option StyleObject)))
    (hf : HashFactory) :
    (cvs.foldl processSlotCompound hf).compound_variants = hf.compound_variants ∧
    (cvs.foldl processSlotCompound hf).context = hf.context := by
  induction cvs generalizing hf with
  | nil => exact ⟨rfl, rfl⟩
  | cons c rest ih =>
    simp only [List.foldl_cons]
    obtain ⟨g1, g2⟩ := ih (processSlotCompound hf c)
    exact ⟨g1.trans (processSlotCompound_compound_variants hf c),
      g2.trans (processSlotCompound_context hf c)⟩

theorem foldl_slotCompound_atomic (cvs : List (List (String × Option StyleObject)))
    (hf : HashFactory) (ctx : CollectorContext) (hctx : hf.context = ctx) :
    (cvs.foldl processSlotCompound hf).atomic
      = cvs.foldl (fun s css => (css.map (·.snd)).foldl
          (fun s styles => hashStyleObject ctx s (styles.getD [])) s) hf.atomic := by
  induction cvs generalizing hf with
  | nil => rfl
  | cons c rest ih =>
    simp only [List.foldl_cons]
    have hpc : (processSlotCompound hf c).context = ctx :=
      (processSlotCompound_context hf c).trans hctx
    rw [ih (processSlotCompound hf c) hpc, processSlotCompound_atomic]
    simp only [hctx]

theorem processSlotRecipeCompound_first (hf : HashFactory) (n : String)
    (config : SlotRecipeConfig) (cvs : List (List (String × Option StyleObject)))
    (hcv : config.compoundVariants = some cvs) (hnew : n ∉ hf.compound_variants) :
    processSlotRecipeCompound hf n config
      = cvs.foldl processSlotCompound
          { hf with compound_variants := setAdd hf.compound_variants n } := by
  unfold processSlotRecipeCompound
  rw [hcv]
  simp [hnew]

theorem processSlotRecipe_compound_first (hf : HashFactory) (n : String)
    (config : SlotRecipeConfig) (cvs : List (List (String × Option StyleObject)))
    (v : StyleObject)
    (hcfg : hf.context.getSlotConfig n = some config)
    (hcv : config.compoundVariants = some cvs)
    (hnew : n ∉ hf.compound_variants) :
    n ∈ (hf.processSlotRecipe n v).compound_variants ∧
    (hf.processSlotRecipe n v).atomic
      = cvs.foldl (fun s css => (css.map (·.snd)).foldl
          (fun s styles => hashStyleObject hf.context s (styles.getD [])) s) hf.atomic := by
  unfold HashFactory.processSlotRecipe
  simp only [hcfg]
  obtain ⟨hSa, hScv, hSctx⟩ :=
    foldl_slotStep_inv config.slots n config (objectAssign config.defaultVariants v) hf
  have hnew2 : n ∉ (config.slots.foldl
      (processSlotStep n config (objectAssign config.defaultVariants v)) hf).compound_variants := by
    rw [hScv]; exact hnew
  show n ∈ (processSlotRecipeCompound
      (config.slots.foldl (processSlotStep n config (objectAssign config.defaultVariants v)) hf)
      n config).compound_variants ∧
    (processSlotRecipeCompound
      (config.slots.foldl (processSlotStep n config (objectAssign config.defaultVariants v)) hf)
      n config).atomic = _
  rw [processSlotRecipeCompound_first
    (config.slots.foldl (processSlotStep n config (objectAssign config.defaultVariants v)) hf)
    n config cvs hcv hnew2]
  constructor
  · rw [(foldl_slotCompound_inv cvs _).1]
    show n ∈ setAdd (config.slots.foldl
      (processSlotStep n config (objectAssign config.defaultVariants v)) hf).compound_variants n
    exact mem_setAdd_self _ _
  · rw [foldl_slotCompound_atomic cvs
      { (config.slots.foldl (processSlotStep n config (objectAssign config.defaultVariants v)) hf)
        with compound_variants := setAdd (config.slots.foldl
          (processSlotStep n config (objectAssign config.defaultVariants v))
          hf).compound_variants n }
      hf.context hSctx]
    show cvs.foldl (fun s css => (css.map (·.snd)).foldl
        (fun s styles => hashStyleObject hf.context s (styles.getD [])) s)
      (config.slots.foldl
        (processSlotStep n config (objectAssign config.defaultVariants v)) hf).atomic = _
    rw [hSa]

/-- C4: compound variants are atomized into the plain atomic registry
exactly once across repeated processing, guarded by membership of the name
in the `compound_variants` set: with the name not yet in the set, the first
`processRecipe` call marks it and atomizes every compound variant's css
block into `atomic`, and likewise the first `processSlotRecipe` call marks
it and atomizes every compound variant's per-slot css blocks; and for any
factory whose set already contains the name, both `processRecipe` and
`processSlotRecipe` leave the atomic registry unchanged (whatever the
variant selection) and keep the mark. -/
theorem claim_C4_compound_variants_once (name : String) :
    (∀ (hf : HashFactory) (config : RecipeConfig) (cvs : List StyleObject) (v : StyleObject),
      hf.context.getConfig name = some config →
      config.compoundVariants = some cvs →
      name ∉ hf.compound_variants →
      name ∈ (hf.processRecipe name v).compound_variants ∧
      (hf.processRecipe name v).atomic
        = cvs.foldl (fun s css => hashStyleObject hf.context s css) hf.atomic) ∧
    (∀ (hf : HashFactory) (config : SlotRecipeConfig)
        (cvs : List (List (String × Option StyleObject))) (v : StyleObject),
      hf.context.getSlotConfig name = some config →
      config.compoundVariants = some cvs →
      name ∉ hf.compound_variants →
      name ∈ (hf.processSlotRecipe name v).compound_variants ∧
      (hf.processSlotRecipe name v).atomic
        = cvs.foldl (fun s css => (css.map (·.snd)).foldl
            (fun s styles => hashStyleObject hf.context s (styles.getD [])) s) hf.atomic) ∧
    (∀ (hf : HashFactory) (v : StyleObject), name ∈ hf.compound_variants →
      (hf.processRecipe name v).atomic = hf.atomic ∧
      name ∈ (hf.processRecipe name v).compound_variants ∧
      (hf.processSlotRecipe name v).atomic = hf.atomic ∧
      name ∈ (hf.processSlotRecipe name v).compound_variants) := by
  refine ⟨?_, ?_, ?_⟩
  · intro hf config cvs v hcfg hcv hnew
    exact processRecipe_compound_first hf name config cvs v hcfg hcv hnew
  · intro hf config cvs v hcfg hcv hnew
    exact processSlotRecipe_compound_first hf name config cvs v hcfg hcv hnew
  · intro hf v hmem
    obtain ⟨a1, a2⟩ := processRecipe_of_mem hf name v hmem
    obtain ⟨b1, b2⟩ := processSlotRecipe_of_mem hf name v hmem
    exact ⟨a1, a2, b1, b2⟩

/-- A collector context extending `demoContext` with one slot recipe
(`card`, slots `root` and `label`) declaring a compound variant whose css
gives the `root` slot a block and leaves the `label` slot without one. -/
def slotRecipeContext : CollectorContext :=
  { demoContext with
    getSlotConfig := fun name =>
      if name == "card" then
        some { slots := ["root", "label"]
               compoundVariants := some
                 [[("root", some [("p", .num 2)]), ("label", none)]] }
      else none }

/-- A fresh factory over `slotRecipeContext`. -/
def slotRecipeFactory : HashFactory := { context := slotRecipeContext }

/-- C4 witness: the first processing of `button` (plain recipe) marks it
and atomizes its compound variant's css, and the first processing of
`card` (slot recipe) marks it and atomizes its compound variant's per-slot
css blocks; reprocessing either leaves the atomic registry unchanged. -/
theorem claim_C4_witness :
    ("button" ∈ (recipeFactory.processRecipe "button" []).compound_variants ∧
      (recipeFactory.processRecipe "button" []).atomic
        = [[(("color" : String), StyleValue.str "red")]].foldl
            (fun s css => hashStyleObject recipeFactory.context s css) recipeFactory.atomic) ∧
    ("card" ∈ (slotRecipeFactory.processSlotRecipe "card" []).compound_variants ∧
      (slotRecipeFactory.processSlotRecipe "card" []).atomic
        = [[(("root" : String), some [(("p" : String), StyleValue.num 2)]),
            (("label" : String), (none : Option StyleObject))]].foldl
            (fun s css => (css.map (·.snd)).foldl
              (fun s styles => hashStyleObject slotRecipeFactory.context s (styles.getD [])) s)
            slotRecipeFactory.atomic) ∧
    ((recipeFactory.processRecipe "button" []).processRecipe "button" []).atomic
        = (recipeFactory.processRecipe "button" []).atomic ∧
    ((slotRecipeFactory.processSlotRecipe "card" []).processSlotRecipe "card" []).atomic
        = (slotRecipeFactory.processSlotRecipe "card" []).atomic := by
  have hb := claim_C4_compound_variants_once "button"
  have hc := claim_C4_compound_variants_once "card"
  have h1 := hb.1 recipeFactory _ _ [] rfl rfl (by decide)
  have h2 := hc.2.1 slotRecipeFactory _ _ [] rfl rfl (by decide)
  refine ⟨h1, h2, ?_, ?_⟩
  · exact (hb.2.2 (recipeFactory.processRecipe "button" []) [] h1.1).1
  · exact (hc.2.2 (slotRecipeFactory.processSlotRecipe "card" []) [] h2.1).2.2.1

/-- `processAtomic` of an empty style object adds nothing. -/
theorem processAtomic_nil (hf : HashFactory) : hf.processAtomic [] = hf := rfl

/-- `processStyleProps` on an empty props object leaves the factory
unchanged. -/
theorem processStyleProps_nil (hf : HashFactory) : hf.processStyleProps [] = hf := by
  unfold HashFactory.processStyleProps
  cases h : hf.context.isTemplateLiteralSyntax <;> simp [h, filterProps, processAtomic_nil]

/-- C9: a recipe or pattern name unknown to the injected configuration
providers makes `processRecipe`, `processSlotRecipe` and `processPattern`
silent no-ops: no error is raised (the embedding is total) and every
registry is left unchanged. -/
theorem claim_C9_unknown_names_noop (hf : HashFactory) (name : String) (v props : StyleObject)
    (isJsx : Bool) (jsxName : Option String)
    (hr : hf.context.getConfig name = none)
    (hs : hf.context.getSlotConfig name = none)
    (hp : hf.context.getPatternTransform
      (if isJsx && optTruthy jsxName then hf.context.getPatternFnName (jsxName.getD "")
       else name) = none) :
    hf.processRecipe name v = hf ∧ hf.processSlotRecipe name v = hf ∧
    hf.processPattern name props isJsx jsxName = hf := by
  refine ⟨?_, ?_, ?_⟩
  · unfold HashFactory.processRecipe
    rw [hr]
  · unfold HashFactory.processSlotRecipe
    rw [hs]
  · simp only [HashFactory.processPattern]
    rw [hp]
    exact processStyleProps_nil hf

/-- C9 witness: `demoContext` registers no recipes and no patterns, so
processing the name `missing` leaves the fresh factory untouched. -/
theorem claim_C9_witness :
    demoFactory.processRecipe "missing" [] = demoFactory ∧
    demoFactory.processSlotRecipe "missing" [] = demoFactory ∧
    demoFactory.processPattern "missing" [("p", .num 4)] = demoFactory :=
  claim_C9_unknown_names_noop demoFactory "missing" [] [("p", .num 4)] false none rfl rfl rfl

/-! ### Builder claims -/

/-- A concrete builder environment: `app.ts` exists at mtime 5 but its
extraction yields no CSS; `box.ts` exists at mtime 7 and yields a
fragment; every other file is missing. -/
def extractEnv : BuilderEnv :=
  { fsMtime := fun f => if f == "app.ts" then some 5 else if f == "box.ts" then some 7 else none
    extractFile := fun f => if f == "box.ts" then some ".box{color:red}" else none }

/-- C6 counterexample: `app.ts` is new to the cache (stale), so the
extractor runs, but its extraction yields no CSS fragment — and the code
then leaves the content cache entirely unchanged, recording no
modification time, while the claim as stated has the modification time
recorded whenever the file is parsed. -/
theorem claim_C6_counterexample :
    (extractFileStep extractEnv { } "app.ts").snd = true ∧
    (extractFileStep extractEnv { } "app.ts").fst = ({ } : ContentData) ∧
    alistGet (extractFileStep extractEnv { } "app.ts").fst.fileModifiedMap "app.ts" = none :=
  ⟨rfl, rfl, rfl⟩

/-- C6 (amended): an in-scope file whose current modification time equals
the recorded one is skipped — the extractor is not invoked and the cache
is unchanged; a file with a different (or unrecorded) modification time is
parsed, and only when a non-empty CSS fragment results are its
modification time recorded and the fragment merged into the file's
accumulated CSS; a parse yielding no fragment leaves the cache unchanged. -/
theorem claim_C6_extract_staleness (env : BuilderEnv) (cd : ContentData) (file : String) :
    (alistGet cd.fileModifiedMap file = some (env.fsMtime file) →
      extractFileStep env cd file = (cd, false)) ∧
    (alistGet cd.fileModifiedMap file ≠ some (env.fsMtime file) →
      (extractFileStep env cd file).snd = true) ∧
    (∀ css, alistGet cd.fileModifiedMap file ≠ some (env.fsMtime file) →
      env.extractFile file = some css → css ≠ "" →
      extractFileStep env cd file
        = ({ fileModifiedMap := alistSet cd.fileModifiedMap file (env.fsMtime file),
             fileCssMap := alistSet cd.fileCssMap file
               (env.mergeCss ((alistGet cd.fileCssMap file).getD "") css) }, true)) ∧
    (alistGet cd.fileModifiedMap file ≠ some (env.fsMtime file) →
      (env.extractFile file = none ∨ env.extractFile file = some "") →
      extractFileStep env cd file = (cd, true)) := by
  have hcases : ∀ h : alistGet cd.fileModifiedMap file ≠ some (env.fsMtime file),
      ((alistGet cd.fileModifiedMap file).isSome &&
        alistGet cd.fileModifiedMap file == some (env.fsMtime file)) = false := by
    intro h
    simp only [Bool.and_eq_false_iff]
    right
    simpa using h
  refine ⟨?_, ?_, ?_, ?_⟩
  · intro h
    simp [extractFileStep, h]
  · intro h
    simp only [extractFileStep, hcases h, Bool.false_eq_true, if_false]
    rcases henv : env.extractFile file with _ | css
    · rfl
    · by_cases hcss : (css == "") = true <;> simp [hcss]
  · intro css h hext hcss
    simp only [extractFileStep, hcases h, Bool.false_eq_true, if_false, hext]
    simp [hcss, writeFileCss]
  · intro h hext
    simp only [extractFileStep, hcases h, Bool.false_eq_true, if_false]
    rcases hext with hext | hext <;> simp [hext]

/-- C6 witness: `box.ts` is stale and yields a fragment, so its
modification time is recorded and the fragment merged; a second pass over
the now-fresh cache entry skips the extractor and changes nothing. -/
theorem claim_C6_witness :
    extractFileStep extractEnv { } "box.ts"
      = ({ fileCssMap := [("box.ts", ".box{color:red}")],
           fileModifiedMap := [("box.ts", some 7)] }, true) ∧
    extractFileStep extractEnv
        { fileCssMap := [("box.ts", ".box{color:red}")],
          fileModifiedMap := [("box.ts", some 7)] } "box.ts"
      = ({ fileCssMap := [("box.ts", ".box{color:red}")],
           fileModifiedMap := [("box.ts", some 7)] }, false) := by
  constructor
  · exact (claim_C6_extract_staleness extractEnv { } "box.ts").2.2.1 ".box{color:red}"
      (by decide) rfl (by decide)
  · exact (claim_C6_extract_staleness extractEnv
      { fileCssMap := [("box.ts", ".box{color:red}")],
        fileModifiedMap := [("box.ts", some 7)] } "box.ts").1 rfl

/-- One dependency file's staleness against the recorded snapshot: a file
missing from disk is never stale; an existing one is stale when there is no
snapshot at all, no record for the file, or a strictly newer time. -/
def depStale (fsMtime : String → Option Int) (prev : Option (List (String × Int)))
    (file : String) : Bool :=
  match fsMtime file with
  | none => false
  | some t =>
    match prev with
    | none => true
    | some pm =>
      match alistGet pm file with
      | none => true
      | some pt => t > pt

theorem checkDepStep_fst (f : String → Option Int) (p : Option (List (String × Int)))
    (acc : Bool × List (String × Int)) (d : String) :
    (checkDepStep f p acc d).fst = (acc.fst || depStale f p d) := by
  unfold checkDepStep depStale
  rcases hfd : f d with _ | t
  · simp
  · rcases p with _ | pm
    · rfl
    · rcases alistGet pm d with _ | pt <;> rfl

theorem foldl_checkDepStep_fst (f : String → Option Int) (p : Option (List (String × Int)))
    (deps : List String) :
    ∀ (b : Bool) (m : List (String × Int)),
      (deps.foldl (checkDepStep f p) (b, m)).fst = (b || deps.any (depStale f p)) := by
  induction deps with
  | nil => intro b m; simp
  | cons d rest ih =>
    intro b m
    simp only [List.foldl_cons, List.any_cons]
    rcases hstep : checkDepStep f p (b, m) d with ⟨b', m'⟩
    rw [ih b' m']
    have hb : b' = (b || depStale f p d) := by
      have h := checkDepStep_fst f p (b, m) d
      rw [hstep] at h
      exact h
    rw [hb, Bool.or_assoc]

theorem checkConfigDeps_fst_any (f : String → Option Int) (p : Option (List (String × Int)))
    (deps : List String) :
    (checkConfigDeps f p deps).fst = deps.any (depStale f p) := by
  unfold checkConfigDeps
  rcases hres : deps.foldl (checkDepStep f p) (false, []) with ⟨mo, nm⟩
  have h := foldl_checkDepStep_fst f p deps false []
  rw [hres] at h
  simp only [Bool.false_or] at h
  simp only [hres]
  cases mo
  · simpa using h.symm
  · simpa using h.symm

theorem checkConfigDeps_skip_missing (f : String → Option Int)
    (p : Option (List (String × Int))) (deps : List String) :
    checkConfigDeps f p deps
      = checkConfigDeps f p (deps.filter (fun x => (f x).isSome)) := by
  unfold checkConfigDeps
  suffices h : ∀ acc, deps.foldl (checkDepStep f p) acc
      = (deps.filter (fun x => (f x).isSome)).foldl (checkDepStep f p) acc by
    rw [h]
  intro acc
  induction deps generalizing acc with
  | nil => rfl
  | cons d rest ih =>
    by_cases hd : (f d).isSome = true
    · simp only [List.filter_cons, hd, if_true, List.foldl_cons]
      exact ih _
    · have hstep : checkDepStep f p acc d = acc := by
        unfold checkDepStep
        rcases hfd : f d with _ | t
        · rfl
        · rw [hfd] at hd
          simp at hd
      simp only [List.filter_cons, hd, List.foldl_cons, hstep, if_false, Bool.false_eq_true]
      exact ih acc

/-- The full shape of `setup()` when the configuration is detected as
modified: the context is rebuilt and the cache entry replaced (one load),
and the refreshed cache entry's context is adopted. -/
theorem setup_eq_modified (env : BuilderEnv) (cache : List (String × ConfigData))
    (b : BuilderState) (configPath : String)
    (hmod : (checkConfigDeps env.fsMtime ((alistGet cache configPath).bind (·.depsModifiedMap))
        (setupConfigDeps env b configPath)).fst = true) :
    setup env cache b configPath =
      { builder := { b with
          configDependencies := setupConfigDeps env b configPath,
          hasConfigChanged := true,
          context := some (env.loadContext configPath) },
        cache := alistSet cache configPath
          (setupContextEntry (env.loadContext configPath)
            (checkConfigDeps env.fsMtime
              ((alistGet cache configPath).bind (·.depsModifiedMap))
              (setupConfigDeps env b configPath)).snd),
        rebuilt := true, builtFresh := false, contextLoads := 1,
        sourceFilesReloaded := true } := by
  unfold setup
  simp only [hmod, if_true]
  rw [alistGet_set_self]
  rfl

/-- The full shape of `setup()` when nothing is modified and a cache entry
exists: the cached context is reused (no load) and its source files
refreshed. -/
theorem setup_eq_cached (env : BuilderEnv) (cache : List (String × ConfigData))
    (b : BuilderState) (configPath : String) (cd : ConfigData)
    (hmod : (checkConfigDeps env.fsMtime ((alistGet cache configPath).bind (·.depsModifiedMap))
        (setupConfigDeps env b configPath)).fst = false)
    (hget : alistGet cache configPath = some cd) :
    setup env cache b configPath =
      { builder := { b with
          configDependencies := setupConfigDeps env b configPath,
          hasConfigChanged := false,
          context := some cd.context },
        cache := cache, rebuilt := false, builtFresh := false, contextLoads := 0,
        sourceFilesReloaded := true } := by
  unfold setup
  simp only [hmod, Bool.false_eq_true, if_false]
  simp only [hget]

/-- The full shape of `setup()` when nothing is modified and no cache entry
exists: a fresh context is built unconditionally. -/
theorem setup_eq_fresh (env : BuilderEnv) (cache : List (String × ConfigData))
    (b : BuilderState) (configPath : String)
    (hmod : (checkConfigDeps env.fsMtime ((alistGet cache configPath).bind (·.depsModifiedMap))
        (setupConfigDeps env b configPath)).fst = false)
    (hget : alistGet cache configPath = none) :
    setup env cache b configPath =
      { builder := { b with
          configDependencies := setupConfigDeps env b configPath,
          hasConfigChanged := false,
          context := some (env.loadContext configPath) },
        cache := alistSet cache configPath
          (setupContextEntry (env.loadContext configPath)
            (checkConfigDeps env.fsMtime
              ((alistGet cache configPath).bind (·.depsModifiedMap))
              (setupConfigDeps env b configPath)).snd),
        rebuilt := false, builtFresh := true, contextLoads := 1,
        sourceFilesReloaded := false } := by
  unfold setup
  simp only [hmod, Bool.false_eq_true, if_false]
  simp only [hget]

/-- C7: `setup()` rebuilds and replaces the build context exactly when some
tracked dependency file on disk has a strictly newer modification time than
recorded for that configuration path or was not previously tracked; when
nothing changed and a cached context exists, the cached context is reused —
its source-file list refreshed — without reloading configuration and
without touching the cache; dependency files missing from disk are skipped
silently by the comparison. -/
theorem claim_C7_setup_staleness (env : BuilderEnv) (cache : List (String × ConfigData))
    (b : BuilderState) (configPath : String) :
    ((setup env cache b configPath).rebuilt
        = (setupConfigDeps env b configPath).any
            (depStale env.fsMtime ((alistGet cache configPath).bind (·.depsModifiedMap)))) ∧
    ((setup env cache b configPath).builder.hasConfigChanged
        = (setup env cache b configPath).rebuilt) ∧
    (∀ cd : ConfigData, (setup env cache b configPath).rebuilt = false →
      alistGet cache configPath = some cd →
      (setup env cache b configPath).builder.context = some cd.context ∧
      (setup env cache b configPath).contextLoads = 0 ∧
      (setup env cache b configPath).sourceFilesReloaded = true ∧
      (setup env cache b configPath).cache = cache) ∧
    (∀ (prev : Option (List (String × Int))) (deps : List String),
      checkConfigDeps env.fsMtime prev deps
        = checkConfigDeps env.fsMtime prev (deps.filter (fun x => (env.fsMtime x).isSome))) := by
  have hany := checkConfigDeps_fst_any env.fsMtime
    ((alistGet cache configPath).bind (·.depsModifiedMap)) (setupConfigDeps env b configPath)
  by_cases hmod : (checkConfigDeps env.fsMtime
      ((alistGet cache configPath).bind (·.depsModifiedMap))
      (setupConfigDeps env b configPath)).fst = true
  · rw [setup_eq_modified env cache b configPath hmod]
    refine ⟨by rw [← hany, hmod], rfl, ?_, fun prev deps =>
      checkConfigDeps_skip_missing env.fsMtime prev deps⟩
    intro cd hreb _
    exact absurd hreb (by simp)
  · have hmod' : (checkConfigDeps env.fsMtime
        ((alistGet cache configPath).bind (·.depsModifiedMap))
        (setupConfigDeps env b configPath)).fst = false := by
      simpa using hmod
    rcases hget : alistGet cache configPath with _ | cd
    · rw [setup_eq_fresh env cache b configPath hmod' hget]
      rw [hget] at hany hmod'
      refine ⟨by rw [← hany, hmod'], rfl, ?_, fun prev deps =>
        checkConfigDeps_skip_missing env.fsMtime prev deps⟩
      intro cd' _ hget'
      exact absurd hget' (by simp)
    · rw [setup_eq_cached env cache b configPath cd hmod' hget]
      rw [hget] at hany hmod'
      refine ⟨by rw [← hany, hmod'], rfl, ?_, fun prev deps =>
        checkConfigDeps_skip_missing env.fsMtime prev deps⟩
      intro cd' _ hget'
      cases hget'
      exact ⟨rfl, rfl, rfl, rfl⟩

/-- A setup environment: the configuration depends on the single file
`dep.ts`, which exists at modification time 10; loading builds a context
with identity 7 and no extra dependencies. -/
def setupEnv : BuilderEnv :=
  { fsMtime := fun f => if f == "dep.ts" then some 10 else none
    getConfigDeps := fun _ => ["dep.ts"]
    loadContext := fun _ => { id := 7 } }

/-- The config cache after the first `setup()` against `setupEnv`. -/
def cacheAfterFirst : List (String × ConfigData) :=
  [("panda.config.ts",
    { context := { id := 7 }, deps := [], depsModifiedMap := some [("dep.ts", 10)] })]

/-- The builder state after the first `setup()` against `setupEnv`. -/
def builderAfterFirst : BuilderState :=
  { context := some { id := 7 }, hasConfigChanged := true, configDependencies := ["dep.ts"] }

/-- C7 witness: the first `setup()` (no snapshot) rebuilds; with the
snapshot recorded and `dep.ts` unchanged, the next `setup()` does not
rebuild, reuses the cached context with zero loads, refreshes its source
files, and leaves the cache untouched. -/
theorem claim_C7_witness :
    (setup setupEnv [] { } "panda.config.ts").rebuilt = true ∧
    (setup setupEnv cacheAfterFirst builderAfterFirst "panda.config.ts").rebuilt = false ∧
    (setup setupEnv cacheAfterFirst builderAfterFirst "panda.config.ts").builder.context
      = some { id := 7 } ∧
    (setup setupEnv cacheAfterFirst builderAfterFirst "panda.config.ts").contextLoads = 0 ∧
    (setup setupEnv cacheAfterFirst builderAfterFirst "panda.config.ts").sourceFilesReloaded
      = true ∧
    (setup setupEnv cacheAfterFirst builderAfterFirst "panda.config.ts").cache
      = cacheAfterFirst := by
  have h1 := (claim_C7_setup_staleness setupEnv [] { } "panda.config.ts").1
  have h2 := claim_C7_setup_staleness setupEnv cacheAfterFirst builderAfterFirst "panda.config.ts"
  have hreb : (setup setupEnv cacheAfterFirst builderAfterFirst "panda.config.ts").rebuilt
      = false := by
    rw [h2.1]
    decide
  have h3 := h2.2.2.1
    { context := { id := 7 }, deps := [], depsModifiedMap := some [("dep.ts", 10)] } hreb rfl
  exact ⟨by rw [h1]; decide, hreb, h3.1, h3.2.1, h3.2.2.1, h3.2.2.2⟩

/-- C8: `emit()` invokes the artifact emitter with the loaded context
exactly when a prior emit has already occurred in this process and the most
recent `setup()` detected a configuration change; in every case it records
that emission has now occurred, and in particular the very first call
(prior-emit flag still unset) emits nothing. -/
theorem claim_C8_emit_gating (b : BuilderState) (ctx : PandaContext)
    (hctx : b.context = some ctx) :
    emit b = .ok ({ b with hasEmitted := true }, b.hasEmitted && b.hasConfigChanged) ∧
    (b.hasEmitted = false → emit b = .ok ({ b with hasEmitted := true }, false)) := by
  constructor
  · unfold emit
    by_cases h : (b.hasEmitted && b.hasConfigChanged) = true
    · simp [h, hctx]
    · have h' : (b.hasEmitted && b.hasConfigChanged) = false := by simpa using h
      simp [h']
  · intro hE
    unfold emit
    simp [hE]

/-- C8 witness: with a loaded context and a changed configuration, the
first `emit()` only records emission (emits nothing); the second call then
emits. -/
theorem claim_C8_witness :
    emit { context := some { id := 7 }, hasConfigChanged := true }
      = .ok ({ context := some { id := 7 }, hasConfigChanged := true, hasEmitted := true },
          false) ∧
    emit { context := some { id := 7 }, hasConfigChanged := true, hasEmitted := true }
      = .ok ({ context := some { id := 7 }, hasConfigChanged := true, hasEmitted := true },
          true) := by
  constructor
  · exact (claim_C8_emit_gating
      { context := some { id := 7 }, hasConfigChanged := true } { id := 7 } rfl).2 rfl
  · exact (claim_C8_emit_gating
      { context := some { id := 7 }, hasConfigChanged := true, hasEmitted := true }
      { id := 7 } rfl).1

end Panda
